import Mathlib

/-!
Verification of the LLM log-analyzer (`src/app.py`) against its
natural-language specification.

The program is a single Python file: a Streamlit UI (`main`) that resolves a
block of log text from either an uploaded file or a text area, and an async
HTTP client (`analyze_logs_with_llm`) that POSTs a fixed JSON payload to a
generative-text endpoint, retrying on HTTP 429/5xx with exponential backoff
(at most 5 attempts), and returns either the extracted model text or one of
four fixed failure strings.

The embedding below models:
  * JSON values (`Json`), Python truthiness and Python subscript semantics
    (`Json.truthy`, `Json.subKey`, `Json.subIdx`, `Json.pyGet`) as exercised
    by `result.get("candidates")` and
    `result["candidates"][0]["content"]["parts"][0]["text"]`;
  * the retry loop (`analyzeGo` / `analyze_logs_with_llm`), driven by an
    environment `env : Nat → HttpResult` giving the outcome of each HTTP
    attempt, and recording the returned value (or escaped exception), the
    number of POSTs issued, and the list of backoff sleeps;
  * the prompt and request-payload construction (`prompt`, `payload`) and the
    JSON serialization performed by `aiohttp`'s `json=` argument
    (`renderJson`), together with a JSON parser (`parseVal`) used to state
    that the serialized body is valid JSON denoting exactly the payload;
  * the input-resolution logic of `main` (`logs_input`).
-/

/-- A JSON value, as produced by Python's `json` module from a response body
(numbers restricted to integers; no claim exercises fractional values). -/
inductive Json where
  | null
  | bool (b : Bool)
  | num (n : Int)
  | str (s : String)
  | arr (xs : List Json)
  | obj (fs : List (String × Json))

/-- Python exceptions that the extraction chain in `analyze_logs_with_llm` can
raise and that neither `except aiohttp.ClientError` nor
`except json.JSONDecodeError` catches. -/
inductive PyExc where
  | keyError
  | indexError
  | typeError
  | attributeError
deriving DecidableEq

/-- Python truthiness of a decoded JSON value (`if result.get("candidates"):`).
`None`, `False`, `0`, `""`, `[]` and `{}` are falsy; everything else is truthy. -/
def Json.truthy : Json → Bool
  | .null => false
  | .bool b => b
  | .num n => decide (n ≠ 0)
  | .str s => decide (s ≠ "")
  | .arr xs => !xs.isEmpty
  | .obj fs => !fs.isEmpty

/-- Python `v[key]` for a string key: dict lookup (missing key raises
`KeyError`); subscripting a list or a string with a string raises `TypeError`,
as does subscripting `None`, a bool or a number. -/
def Json.subKey : Json → String → Except PyExc Json
  | .obj fs, k =>
    match fs.lookup k with
    | some v => .ok v
    | none => .error .keyError
  | _, _ => .error .typeError

/-- Python `v[i]` for a non-negative integer literal: list indexing (out of
range raises `IndexError`); indexing a dict whose keys are strings raises
`KeyError`; indexing a string yields a one-character string (out of range
raises `IndexError`); anything else raises `TypeError`. -/
def Json.subIdx : Json → Nat → Except PyExc Json
  | .arr xs, i =>
    match xs.get? i with
    | some v => .ok v
    | none => .error .indexError
  | .obj _, _ => .error .keyError
  | .str s, i =>
    match s.data.get? i with
    | some c => .ok (.str (String.mk [c]))
    | none => .error .indexError
  | _, _ => .error .typeError

/-- Python `result.get(key)`: defined on dicts only (`.get` on any other
decoded value raises `AttributeError`); returns `None` when the key is absent. -/
def Json.pyGet : Json → String → Except PyExc (Option Json)
  | .obj fs, k => .ok (fs.lookup k)
  | _, _ => .error .attributeError

/-- Truthiness of `result.get("candidates")`: `None` (missing key) is falsy. -/
def truthyOpt : Option Json → Bool
  | none => false
  | some v => v.truthy

/-- The extraction `result["candidates"][0]["content"]["parts"][0]["text"]`
performed on the parsed 2xx response body (src/app.py line 67). -/
def extractText (result : Json) : Except PyExc Json := do
  let cands ← result.subKey "candidates"
  let cand0 ← cands.subIdx 0
  let content ← cand0.subKey "content"
  let parts ← content.subKey "parts"
  let part0 ← parts.subIdx 0
  part0.subKey "text"

/-- `MODEL_NAME` (src/app.py line 9). -/
def MODEL_NAME : String := "gemini-2.5-flash-preview-05-20"

/-- `API_URL` (src/app.py line 10). -/
def API_URL : String :=
  "https://generativelanguage.googleapis.com/v1beta/models/" ++ MODEL_NAME
    ++ ":generateContent"

/-- `api_key` (src/app.py line 17): a hardcoded empty string; the code performs
no configuration lookup and no missing-key check. -/
def api_key : String := ""

/-- The fixed failure string returned when the 2xx body has no candidates
(src/app.py line 71). -/
def noAnalysisMsg : String := "No analysis could be generated."

/-- The fixed failure string returned from the `aiohttp.ClientError` handler
(src/app.py line 75); `raise_for_status` on a 4xx also lands here. -/
def connectErrMsg : String := "An error occurred while connecting to the API."

/-- The fixed failure string returned from the `json.JSONDecodeError` handler
(src/app.py line 78). -/
def decodeErrMsg : String := "An error occurred while processing the API response."

/-- The fixed failure string returned when the retry loop exhausts its 5
attempts (src/app.py line 81). -/
def maxRetriesMsg : String := "Failed to get a response from the API after several retries."

/-- What one HTTP POST attempt yields: a status code together with the decoded
JSON body (`none` when `await response.json()` raises `json.JSONDecodeError`),
or a transport-level `aiohttp.ClientError` while issuing the request. -/
inductive HttpResult where
  | response (status : Nat) (body : Option Json)
  | transportError

/-- A retryable status per src/app.py line 56:
`response.status == 429 or response.status >= 500`. -/
def isRetryable : HttpResult → Bool
  | .response s _ => decide (s = 429 ∨ 500 ≤ s)
  | .transportError => false

/-- How one call to `analyze_logs_with_llm` ends: with a Python `return` of a
value, or with an exception escaping the function (no handler catches it). -/
inductive Outcome where
  | returned (v : Json)
  | raised (e : PyExc)

/-- The observable behaviour of one call: how it ended, how many HTTP POSTs
were issued, the backoff sleeps performed (in seconds, in order), and the JSON
request body sent with every POST. -/
structure RunResult where
  outcome : Outcome
  attempts : Nat
  delays : List Nat
  sentBody : List Char

/-- What one loop iteration does with its HTTP result: try again, or finish
the call with an outcome. -/
inductive StepOut where
  | retry
  | done (o : Outcome)

/-- The body of one iteration of the retry loop (src/app.py lines 52-78),
given the HTTP result of the POST.  A 429/5xx status is retried; on any other
status, `raise_for_status` turns `≥ 400` into an `aiohttp.ClientResponseError`
(a `ClientError`, so the first handler returns the connection-error string); a
transport failure while issuing the request lands in the same handler; a body
that fails JSON decoding lands in the `JSONDecodeError` handler; a decoded body
with falsy `candidates` returns the fixed empty-result string; otherwise the
nested extraction either returns its value or raises an uncaught exception. -/
def attemptOutcome : HttpResult → StepOut
  | .transportError => .done (.returned (.str connectErrMsg))
  | .response status mbody =>
    if status = 429 ∨ 500 ≤ status then .retry
    else if 400 ≤ status then .done (.returned (.str connectErrMsg))
    else
      match mbody with
      | none => .done (.returned (.str decodeErrMsg))
      | some result =>
        match result.pyGet "candidates" with
        | .error e => .done (.raised e)
        | .ok cand =>
          if truthyOpt cand then
            match extractText result with
            | .ok v => .done (.returned v)
            | .error e => .done (.raised e)
          else .done (.returned (.str noAnalysisMsg))

/-- The retry loop of `analyze_logs_with_llm` (src/app.py lines 50-81).
`env n` is the outcome of the HTTP POST issued when `retries = n`; `fuel` is
`5 - retries`, so the `while retries < 5` guard is `fuel > 0`.  A retryable
iteration sleeps `2 ** retries` seconds (recorded in `delays`), increments the
counter and loops; any other iteration ends the call with its outcome; an
exhausted loop returns the fixed max-retries string. -/
def analyzeGo (env : Nat → HttpResult) (body : List Char) :
    Nat → Nat → Nat → List Nat → RunResult
  | _retries, 0, attempts, delays =>
    ⟨.returned (.str maxRetriesMsg), attempts, delays, body⟩
  | retries, fuel + 1, attempts, delays =>
    match attemptOutcome (env retries) with
    | .retry => analyzeGo env body (retries + 1) fuel (attempts + 1) (delays ++ [2 ^ retries])
    | .done o => ⟨o, attempts + 1, delays, body⟩

/-- The exact text preceding `{logs}` inside the f-string prompt
(src/app.py lines 24-28). -/
def promptPre : String :=
  "\n    Analyze the following server logs and provide a summary of the root cause, potential next steps, and any recommended scripts or commands.\n    The logs are as follows:\n\n    "

/-- The exact text following `{logs}` inside the f-string prompt
(src/app.py lines 28-31). -/
def promptPost : String :=
  "\n\n    Please format the response clearly with headings for \"Root Cause\", \"Next Steps\", and \"Recommended Scripts/Commands\".\n    "

/-- The prompt f-string (src/app.py lines 24-31): the fixed template with
`logs` interpolated verbatim. -/
def prompt (logs : String) : String := promptPre ++ logs ++ promptPost

/-- The request payload dict (src/app.py lines 33-47). -/
def payload (logs : String) : Json :=
  .obj
    [("contents",
      .arr
        [.obj
          [("role", .str "user"),
           ("parts", .arr [.obj [("text", .str (prompt logs))]])]]),
     ("generationConfig", .obj [("responseMimeType", .str "text/plain")])]

/-- Hexadecimal digit character for `n < 16` (lower case), used by `escapeChar`
for control characters. -/
def toHexDigit (n : Nat) : Char :=
  Char.ofNat (if n < 10 then 48 + n else 87 + n)

/-- JSON escaping of one character, as performed by the `json.dumps` call
behind `aiohttp`'s `json=payload`: quote, backslash and control characters are
escaped; every other character passes through. -/
def escapeChar (c : Char) : List Char :=
  if c = '"' then ['\\', '"']
  else if c = '\\' then ['\\', '\\']
  else if c = '\n' then ['\\', 'n']
  else if c = '\t' then ['\\', 't']
  else if c = '\r' then ['\\', 'r']
  else if c.toNat < 32 then
    ['\\', 'u', '0', '0', toHexDigit (c.toNat / 16), toHexDigit (c.toNat % 16)]
  else [c]

/-- Characterwise JSON escaping of a character list. -/
def escapeList : List Char → List Char
  | [] => []
  | c :: cs => escapeChar c ++ escapeList cs

mutual

/-- Compact JSON serialization of a value, modelling the `json.dumps`
serialization of the request payload (whitespace between tokens dropped). -/
def renderJson : Json → List Char
  | .null => ['n', 'u', 'l', 'l']
  | .bool b => if b then ['t', 'r', 'u', 'e'] else ['f', 'a', 'l', 's', 'e']
  | .num n => (toString n).data
  | .str s => '"' :: (escapeList s.data ++ ['"'])
  | .arr xs => '[' :: (renderItems xs ++ [']'])
  | .obj fs => '{' :: (renderPairs fs ++ ['}'])

/-- Comma-separated serialization of array elements (empty for `[]`). -/
def renderItems : List Json → List Char
  | [] => []
  | x :: xs => renderJson x ++ renderItemsTail xs

/-- The `, element` tail of a non-empty array serialization. -/
def renderItemsTail : List Json → List Char
  | [] => []
  | x :: xs => ',' :: (renderJson x ++ renderItemsTail xs)

/-- Comma-separated serialization of object members (empty for `{}`). -/
def renderPairs : List (String × Json) → List Char
  | [] => []
  | (k, v) :: fs =>
    '"' :: (escapeList k.data ++ '"' :: ':' :: (renderJson v ++ renderPairsTail fs))

/-- The `, "key": value` tail of a non-empty object serialization. -/
def renderPairsTail : List (String × Json) → List Char
  | [] => []
  | (k, v) :: fs =>
    ',' :: '"' :: (escapeList k.data ++ '"' :: ':' :: (renderJson v ++ renderPairsTail fs))

end

/-- The JSON request body sent with every POST of `analyze_logs_with_llm`
(src/app.py line 54, `json=payload`). -/
def requestBody (logs : String) : List Char := renderJson (payload logs)

/-- `analyze_logs_with_llm` (src/app.py lines 12-81), with the outcomes of the
successive HTTP POST attempts abstracted as `env`.  Builds the prompt and
payload from `logs`, then runs the bounded retry loop. -/
def analyze_logs_with_llm (logs : String) (env : Nat → HttpResult) : RunResult :=
  analyzeGo env (requestBody logs) 0 5 0 []

/-- The input resolution of `main` (src/app.py lines 95-102): when a file has
been uploaded, its UTF-8-decoded contents are used unconditionally; only when
no file is present does the text area supply the value. -/
def logs_input (uploaded_file : Option String) (text_area : String) : String :=
  match uploaded_file with
  | some contents => contents
  | none => text_area

/-- Modelled from the spec (not from the source): the input-resolution rule as
the specification words it — the uploaded file's contents win only when they
are non-empty, otherwise the text area supplies the value.  Stated solely for
comparison with `logs_input`. -/
def logs_input_specRule (uploaded_file : Option String) (text_area : String) : String :=
  match uploaded_file with
  | some contents => if contents ≠ "" then contents else text_area
  | none => text_area

/-- Numeric value of one hexadecimal digit character, if any. -/
def hexDigitVal (c : Char) : Option Nat :=
  if 48 ≤ c.toNat ∧ c.toNat ≤ 57 then some (c.toNat - 48)
  else if 97 ≤ c.toNat ∧ c.toNat ≤ 102 then some (c.toNat - 87)
  else if 65 ≤ c.toNat ∧ c.toNat ≤ 70 then some (c.toNat - 55)
  else none

/-- Numeric value of a four-hex-digit escape payload, if well formed. -/
def hex4 (h1 h2 h3 h4 : Char) : Option Nat := do
  let a ← hexDigitVal h1
  let b ← hexDigitVal h2
  let c ← hexDigitVal h3
  let d ← hexDigitVal h4
  pure (((a * 16 + b) * 16 + c) * 16 + d)

/-- Inverse of a short escape sequence (`\n`, `\t`, `\r`, `\b`, `\f`, `\"`,
`\/`, `\\`). -/
def unescapeChar : Char → Option Char
  | 'n' => some '\n'
  | 't' => some '\t'
  | 'r' => some '\x0d'
  | 'b' => some '\x08'
  | 'f' => some '\x0c'
  | '"' => some '"'
  | '/' => some '/'
  | '\\' => some '\\'
  | _ => none

/-- Parse the body of a JSON string after its opening quote, undoing escapes;
returns the decoded characters and the input after the closing quote. -/
def parseStringBody : List Char → Option (List Char × List Char)
  | [] => none
  | c :: cs =>
    if c = '"' then some ([], cs)
    else if c = '\\' then
      match cs with
      | 'u' :: h1 :: h2 :: h3 :: h4 :: cs2 =>
        match hex4 h1 h2 h3 h4 with
        | some n => (parseStringBody cs2).map (fun p => (Char.ofNat n :: p.1, p.2))
        | none => none
      | e :: cs2 =>
        match unescapeChar e with
        | some d => (parseStringBody cs2).map (fun p => (d :: p.1, p.2))
        | none => none
      | [] => none
    else (parseStringBody cs).map (fun p => (c :: p.1, p.2))
termination_by l => l.length
decreasing_by all_goals first | (simp_wf; omega) | simp_wf

mutual

/-- A recursive-descent JSON value parser (strings, arrays, objects and the
three literals; compact form, as `renderJson` emits).  `fuel` bounds the
recursion; any accepted input is well-formed JSON. -/
def parseVal : Nat → List Char → Option (Json × List Char)
  | 0, _ => none
  | _ + 1, [] => none
  | fuel + 1, c :: cs =>
    if c = '"' then (parseStringBody cs).map (fun p => (Json.str (String.mk p.1), p.2))
    else if c = 'n' then
      match cs with
      | 'u' :: 'l' :: 'l' :: r => some (Json.null, r)
      | _ => none
    else if c = 't' then
      match cs with
      | 'r' :: 'u' :: 'e' :: r => some (Json.bool true, r)
      | _ => none
    else if c = 'f' then
      match cs with
      | 'a' :: 'l' :: 's' :: 'e' :: r => some (Json.bool false, r)
      | _ => none
    else if c = '[' then
      match cs with
      | ']' :: r => some (Json.arr [], r)
      | _ => (parseItems fuel cs).map (fun p => (Json.arr p.1, p.2))
    else if c = '{' then
      match cs with
      | '}' :: r => some (Json.obj [], r)
      | _ => (parseFields fuel cs).map (fun p => (Json.obj p.1, p.2))
    else none

/-- Parse one or more comma-separated array elements up to the closing `]`. -/
def parseItems : Nat → List Char → Option (List Json × List Char)
  | 0, _ => none
  | fuel + 1, cs =>
    match parseVal fuel cs with
    | none => none
    | some (v, r) =>
      match r with
      | ',' :: r2 => (parseItems fuel r2).map (fun p => (v :: p.1, p.2))
      | ']' :: r2 => some ([v], r2)
      | _ => none

/-- Parse one or more comma-separated object members up to the closing `}`. -/
def parseFields : Nat → List Char → Option (List (String × Json) × List Char)
  | 0, _ => none
  | fuel + 1, cs =>
    match cs with
    | '"' :: cs1 =>
      match parseStringBody cs1 with
      | none => none
      | some (k, r1) =>
        match r1 with
        | ':' :: r2 =>
          match parseVal fuel r2 with
          | none => none
          | some (v, r3) =>
            match r3 with
            | ',' :: r4 => (parseFields fuel r4).map (fun p => ((String.mk k, v) :: p.1, p.2))
            | '}' :: r4 => some ([(String.mk k, v)], r4)
            | _ => none
        | _ => none
    | _ => none

end

mutual

/-- Node count of a JSON value; a fuel bound sufficient for `parseVal`. -/
def Json.size : Json → Nat
  | .null => 1
  | .bool _ => 1
  | .num _ => 1
  | .str _ => 1
  | .arr xs => 1 + sizeItems xs
  | .obj fs => 1 + sizeFields fs

/-- Summed size of array elements, one extra unit per element. -/
def sizeItems : List Json → Nat
  | [] => 0
  | x :: xs => 1 + Json.size x + sizeItems xs

/-- Summed size of object member values, one extra unit per member. -/
def sizeFields : List (String × Json) → Nat
  | [] => 0
  | (_, v) :: fs => 1 + Json.size v + sizeFields fs

end

mutual

/-- `true` when the value contains no number (the payload never does; the
parser does not read numbers back). -/
def Json.noNum : Json → Bool
  | .null => true
  | .bool _ => true
  | .num _ => false
  | .str _ => true
  | .arr xs => noNumItems xs
  | .obj fs => noNumFields fs

/-- `noNum` over array elements. -/
def noNumItems : List Json → Bool
  | [] => true
  | x :: xs => Json.noNum x && noNumItems xs

/-- `noNum` over object member values. -/
def noNumFields : List (String × Json) → Bool
  | [] => true
  | (_, v) :: fs => Json.noNum v && noNumFields fs

end

/-- The backoff sleeps accumulated after `k` consecutive retryable failures:
`2 ^ 0, …, 2 ^ (k-1)` seconds. -/
def backoffs (k : Nat) : List Nat := (List.range k).map (fun i => 2 ^ i)

/-- A well-shaped 2xx response body: a `candidates` list whose first element
carries `content.parts[0].text = t`, with arbitrary further parts `ps` and
further candidates `cs`. -/
def candidateBody (t : String) (ps cs : List Json) : Json :=
  .obj
    [("candidates",
      .arr
        (.obj [("content", .obj [("parts", .arr (.obj [("text", .str t)] :: ps))])]
          :: cs))]

/-- The extracted text of one HTTP result when it is a successful attempt
(non-retryable, non-error status, decodable body, truthy `candidates`,
extraction succeeding); `none` otherwise.  This is the discriminator the
string-typed return value of `analyze_logs_with_llm` does not carry. -/
def extractSuccess : HttpResult → Option Json
  | .response s (some result) =>
    if s = 429 ∨ 500 ≤ s then none
    else if 400 ≤ s then none
    else
      match result.pyGet "candidates" with
      | .ok cand =>
        if truthyOpt cand then
          match extractText result with
          | .ok v => some v
          | .error _ => none
        else none
      | .error _ => none
  | _ => none

/-- The value with which a run of the loop succeeds at attempt `k` (0-based),
if it does: all earlier attempts must be retryable and attempt `k` must be a
successful extraction. -/
def succValAt (env : Nat → HttpResult) (k : Nat) : Option Json :=
  if (List.range k).all (fun i => isRetryable (env i)) then extractSuccess (env k)
  else none

/-- The four fixed strings `analyze_logs_with_llm` can return other than an
extracted analysis text (src/app.py lines 71, 75, 78, 81). -/
def failureReturns : List Json :=
  [.str noAnalysisMsg, .str connectErrMsg, .str decodeErrMsg, .str maxRetriesMsg]

/-- An environment in which every attempt gets HTTP 500. -/
def env500 : Nat → HttpResult := fun _ => .response 500 none

/-- An environment in which every attempt gets HTTP 404. -/
def env404 : Nat → HttpResult := fun _ => .response 404 none

/-- An environment in which every attempt fails at the transport level. -/
def envTransport : Nat → HttpResult := fun _ => .transportError

/-- An environment in which every attempt gets HTTP 200 with an undecodable
body. -/
def envBadJson : Nat → HttpResult := fun _ => .response 200 none

/-- An environment in which every attempt gets HTTP 200 with
`{"candidates": []}`. -/
def env200Empty : Nat → HttpResult :=
  fun _ => .response 200 (some (.obj [("candidates", .arr [])]))

/-- An environment in which every attempt gets HTTP 200 with a truthy
`candidates` value of the wrong nested shape: `{"candidates": [{}]}`. -/
def envMalformed : Nat → HttpResult :=
  fun _ => .response 200 (some (.obj [("candidates", .arr [.obj []])]))

/-- An environment giving HTTP 503 on the first two attempts, then HTTP 200
with a well-shaped body on attempt 2 (0-based). -/
def envFlakyThenOk : Nat → HttpResult :=
  fun n =>
    if n < 2 then .response 503 none
    else .response 200 (some (candidateBody "All good" [] []))

/-- An environment whose first attempt succeeds with an extracted text equal,
character for character, to the connection-error failure string. -/
def envAmbiguous : Nat → HttpResult :=
  fun _ => .response 200 (some (candidateBody connectErrMsg [] []))

/-- A retryable status (429/5xx) makes the iteration loop again. -/
theorem attemptOutcome_eq_retry (r : HttpResult) (h : isRetryable r = true) :
    attemptOutcome r = .retry := by
  cases r with
  | transportError => simp [isRetryable] at h
  | response s b =>
    have hs : s = 429 ∨ 500 ≤ s := by simpa [isRetryable] using h
    simp only [attemptOutcome]
    rw [if_pos hs]

/-- One retryable attempt: the loop sleeps `2 ^ retries` seconds, increments
the counter and continues. -/
theorem analyzeGo_retry (env : Nat → HttpResult) (body : List Char)
    (retries fuel attempts : Nat) (delays : List Nat)
    (h : isRetryable (env retries) = true) :
    analyzeGo env body retries (fuel + 1) attempts delays
      = analyzeGo env body (retries + 1) fuel (attempts + 1) (delays ++ [2 ^ retries]) := by
  conv_lhs => rw [analyzeGo]
  rw [attemptOutcome_eq_retry (env retries) h]

/-- A non-retryable attempt ends the call at once with its outcome: one more
POST is counted and no backoff sleep is added. -/
theorem analyzeGo_done (env : Nat → HttpResult) (body : List Char)
    (retries fuel attempts : Nat) (delays : List Nat) (o : Outcome)
    (h : attemptOutcome (env retries) = .done o) :
    analyzeGo env body retries (fuel + 1) attempts delays
      = ⟨o, attempts + 1, delays, body⟩ := by
  conv_lhs => rw [analyzeGo]
  rw [h]

/-- Running the loop across a block of `k` consecutive retryable attempts:
`k` POSTs are issued and `k` backoff sleeps of `2 ^ (retries + i)` seconds are
appended before the loop continues with the remaining fuel. -/
theorem analyzeGo_skip (env : Nat → HttpResult) (body : List Char)
    (k : Nat) :
    ∀ (retries fuel attempts : Nat) (delays : List Nat),
      (∀ i, i < k → isRetryable (env (retries + i)) = true) → k ≤ fuel →
      analyzeGo env body retries fuel attempts delays
        = analyzeGo env body (retries + k) (fuel - k) (attempts + k)
            (delays ++ (List.range k).map (fun i => 2 ^ (retries + i))) := by
  induction k with
  | zero => intro retries fuel attempts delays _ _; simp
  | succ k ih =>
    intro retries fuel attempts delays h hk
    obtain ⟨f, rfl⟩ : ∃ f, fuel = f + 1 := ⟨fuel - 1, by omega⟩
    rw [analyzeGo_retry env body retries f attempts delays (by simpa using h 0 (by omega))]
    rw [ih (retries + 1) f (attempts + 1) (delays ++ [2 ^ retries])
        (fun i hi => by
          have := h (i + 1) (by omega)
          simpa [Nat.add_assoc, Nat.add_comm 1 i] using this)
        (by omega)]
    have hrange :
        (delays ++ [2 ^ retries]) ++ (List.range k).map (fun i => 2 ^ (retries + 1 + i))
          = delays ++ (List.range (k + 1)).map (fun i => 2 ^ (retries + i)) := by
      rw [List.range_succ_eq_map]
      simp only [List.map_cons, List.map_map, List.append_assoc, List.singleton_append,
        Nat.add_zero]
      congr 2
      apply List.map_congr_left
      intro i _
      simp only [Function.comp_apply]
      congr 1
      omega
    rw [hrange]
    have h1 : retries + 1 + k = retries + (k + 1) := by omega
    have h2 : f + 1 - (k + 1) = f - k := by omega
    have h3 : attempts + 1 + k = attempts + (k + 1) := by omega
    rw [h1, h2, h3]

/-- An iteration loops again exactly when its status was 429/5xx. -/
theorem attemptOutcome_retry_iff (r : HttpResult) :
    attemptOutcome r = .retry ↔ isRetryable r = true := by
  constructor
  · intro h
    cases r with
    | transportError => simp [attemptOutcome] at h
    | response s b =>
      by_cases hs : s = 429 ∨ 500 ≤ s
      · simpa [isRetryable] using hs
      · exfalso
        simp only [attemptOutcome, if_neg hs] at h
        by_cases h4 : 400 ≤ s
        · rw [if_pos h4] at h
          exact StepOut.noConfusion h
        · rw [if_neg h4] at h
          cases b with
          | none => exact StepOut.noConfusion h
          | some result =>
            simp only [] at h
            cases hget : result.pyGet "candidates" with
            | error e => simp only [hget] at h; exact StepOut.noConfusion h
            | ok cand =>
              simp only [hget] at h
              by_cases ht : truthyOpt cand = true
              · rw [if_pos ht] at h
                cases hext : extractText result with
                | ok w => simp only [hext] at h; exact StepOut.noConfusion h
                | error e => simp only [hext] at h; exact StepOut.noConfusion h
              · rw [if_neg ht] at h
                exact StepOut.noConfusion h
  · exact attemptOutcome_eq_retry r

/-- Variant of `analyzeGo_retry` keyed on the iteration's `StepOut`. -/
theorem analyzeGo_retry_of (env : Nat → HttpResult) (body : List Char)
    (retries fuel attempts : Nat) (delays : List Nat)
    (h : attemptOutcome (env retries) = .retry) :
    analyzeGo env body retries (fuel + 1) attempts delays
      = analyzeGo env body (retries + 1) fuel (attempts + 1) (delays ++ [2 ^ retries]) :=
  analyzeGo_retry env body retries fuel attempts delays
    ((attemptOutcome_retry_iff (env retries)).mp h)

/-- A run whose first `k` attempts (0-based, `k < 5`) are retryable and whose
attempt `k` finishes with outcome `o` issues exactly `k + 1` POSTs, sleeps
exactly the `k` backoffs, and ends with `o`. -/
theorem analyze_done_at (logs : String) (env : Nat → HttpResult) (k : Nat)
    (o : Outcome) (hk : k < 5)
    (hpre : ∀ i, i < k → isRetryable (env i) = true)
    (hdone : attemptOutcome (env k) = .done o) :
    analyze_logs_with_llm logs env = ⟨o, k + 1, backoffs k, requestBody logs⟩ := by
  unfold analyze_logs_with_llm
  rw [analyzeGo_skip env (requestBody logs) k 0 5 0 []
      (fun i hi => by simpa using hpre i hi) (by omega)]
  obtain ⟨m, hm⟩ : ∃ m, 5 - k = m + 1 := ⟨4 - k, by omega⟩
  rw [hm]
  rw [analyzeGo_done env (requestBody logs) (0 + k) m (0 + k) _ o (by simpa using hdone)]
  simp [backoffs]

/-- The attempt counter never decreases across the loop. -/
theorem analyzeGo_attempts_mono (env : Nat → HttpResult) (body : List Char) :
    ∀ (fuel retries attempts : Nat) (delays : List Nat),
      attempts ≤ (analyzeGo env body retries fuel attempts delays).attempts := by
  intro fuel
  induction fuel with
  | zero => intro retries attempts delays; exact le_refl _
  | succ f ih =>
    intro retries attempts delays
    cases h : attemptOutcome (env retries) with
    | retry =>
      rw [analyzeGo_retry_of env body retries f attempts delays h]
      exact le_trans (by omega) (ih (retries + 1) (attempts + 1) (delays ++ [2 ^ retries]))
    | done o =>
      rw [analyzeGo_done env body retries f attempts delays o h]
      exact Nat.le_succ attempts

/-- Every returned value of the loop is one of the four fixed failure strings
or the extracted text of a successful attempt within the remaining fuel. -/
theorem analyzeGo_returned_classify (env : Nat → HttpResult) (body : List Char) :
    ∀ (fuel retries attempts : Nat) (delays : List Nat) (v : Json) (a : Nat)
      (d : List Nat) (b : List Char),
      (∀ i, i < retries → isRetryable (env i) = true) →
      analyzeGo env body retries fuel attempts delays = ⟨.returned v, a, d, b⟩ →
      v ∈ failureReturns
        ∨ ∃ k, retries ≤ k ∧ k < retries + fuel ∧ succValAt env k = some v := by
  intro fuel
  induction fuel with
  | zero =>
    intro retries attempts delays v a d b _ hrun
    left
    rw [analyzeGo] at hrun
    have hv : Json.str maxRetriesMsg = v := by
      have := congrArg RunResult.outcome hrun
      simpa [Outcome.returned.injEq] using this
    rw [← hv]
    simp [failureReturns]
  | succ f ih =>
    intro retries attempts delays v a d b hpre hrun
    cases h : attemptOutcome (env retries) with
    | retry =>
      rw [analyzeGo_retry_of env body retries f attempts delays h] at hrun
      have hpre' : ∀ i, i < retries + 1 → isRetryable (env i) = true := by
        intro i hi
        rcases Nat.lt_succ_iff_lt_or_eq.mp hi with hlt | rfl
        · exact hpre i hlt
        · exact (attemptOutcome_retry_iff (env i)).mp h
      rcases ih (retries + 1) (attempts + 1) (delays ++ [2 ^ retries]) v a d b hpre' hrun with
        hfail | ⟨k, hk1, hk2, hk3⟩
      · exact Or.inl hfail
      · exact Or.inr ⟨k, by omega, by omega, hk3⟩
    | done o =>
      rw [analyzeGo_done env body retries f attempts delays o h] at hrun
      have ho : o = .returned v := by
        have := congrArg RunResult.outcome hrun
        simpa using this
      subst ho
      have hall : (List.range retries).all (fun i => isRetryable (env i)) = true := by
        rw [List.all_eq_true]
        intro i hi
        exact hpre i (List.mem_range.mp hi)
      -- classify the finishing attempt
      cases henv : env retries with
      | transportError =>
        left
        rw [henv] at h
        have : Outcome.returned (.str connectErrMsg) = Outcome.returned v := by
          simpa [attemptOutcome] using h
        have hv : Json.str connectErrMsg = v := by simpa using this
        rw [← hv]; simp [failureReturns]
      | response s mbody =>
        rw [henv] at h
        by_cases hs : s = 429 ∨ 500 ≤ s
        · exfalso
          simp only [attemptOutcome, if_pos hs] at h
          exact StepOut.noConfusion h
        · by_cases h4 : 400 ≤ s
          · left
            simp only [attemptOutcome, if_neg hs, if_pos h4] at h
            have hv : Json.str connectErrMsg = v := by
              have := h
              simp only [StepOut.done.injEq, Outcome.returned.injEq] at this
              exact this
            rw [← hv]; simp [failureReturns]
          · cases mbody with
            | none =>
              left
              simp only [attemptOutcome, if_neg hs, if_neg h4] at h
              have hv : Json.str decodeErrMsg = v := by
                have := h
                simp only [StepOut.done.injEq, Outcome.returned.injEq] at this
                exact this
              rw [← hv]; simp [failureReturns]
            | some result =>
              simp only [attemptOutcome, if_neg hs, if_neg h4] at h
              cases hget : result.pyGet "candidates" with
              | error e =>
                simp only [hget] at h
                exact absurd h (by simp)
              | ok cand =>
                simp only [hget] at h
                by_cases ht : truthyOpt cand = true
                · rw [if_pos ht] at h
                  cases hext : extractText result with
                  | ok w =>
                    simp only [hext] at h
                    have hv : w = v := by
                      simpa [StepOut.done.injEq, Outcome.returned.injEq] using h
                    right
                    refine ⟨retries, le_refl _, by omega, ?_⟩
                    rw [succValAt, if_pos hall, henv]
                    simp only [extractSuccess, if_neg hs, if_neg h4, hget, if_pos ht, hext]
                    rw [hv]
                  | error e =>
                    simp only [hext] at h
                    exact absurd h (by simp)
                · rw [if_neg ht] at h
                  left
                  have hv : Json.str noAnalysisMsg = v := by
                    simpa [StepOut.done.injEq, Outcome.returned.injEq] using h
                  rw [← hv]; simp [failureReturns]

/-- Every JSON value has positive size. -/
theorem Json.size_pos : ∀ j : Json, 1 ≤ Json.size j := by
  intro j
  cases j <;> simp [Json.size]

/-- `hexDigitVal` inverts `toHexDigit` on one hex digit. -/
theorem hexDigitVal_toHexDigit (n : Nat) (h : n < 16) :
    hexDigitVal (toHexDigit n) = some n := by
  interval_cases n <;> decide

/-- Reading a closing quote ends the string body. -/
theorem parseStringBody_close (cs : List Char) :
    parseStringBody ('"' :: cs) = some ([], cs) := by
  rw [parseStringBody.eq_def]
  simp only []
  rw [if_pos trivial]

/-- Parsing one escaped character undoes `escapeChar`. -/
theorem parseStringBody_escape_step (c : Char) (cs : List Char) :
    parseStringBody (escapeChar c ++ cs)
      = (parseStringBody cs).map (fun p => (c :: p.1, p.2)) := by
  by_cases h1 : c = '"'
  · subst h1; simp [escapeChar, parseStringBody, unescapeChar]
  by_cases h2 : c = '\\'
  · subst h2; simp [escapeChar, h1, parseStringBody, unescapeChar]
  by_cases h3 : c = '\n'
  · subst h3; simp [escapeChar, h1, h2, parseStringBody, unescapeChar]
  by_cases h4 : c = '\t'
  · subst h4; simp [escapeChar, h1, h2, h3, parseStringBody, unescapeChar]
  by_cases h5 : c = '\r'
  · subst h5; simp [escapeChar, h1, h2, h3, h4, parseStringBody, unescapeChar]
  by_cases h6 : c.toNat < 32
  · have he : escapeChar c ++ cs
        = '\\' :: 'u' :: '0' :: '0' :: toHexDigit (c.toNat / 16)
            :: toHexDigit (c.toNat % 16) :: cs := by
      simp [escapeChar, h1, h2, h3, h4, h5, if_pos h6]
    have hhi : c.toNat / 16 < 16 := by omega
    have hlo : c.toNat % 16 < 16 := by omega
    have hx : hex4 '0' '0' (toHexDigit (c.toNat / 16)) (toHexDigit (c.toNat % 16))
        = some c.toNat := by
      simp only [hex4, hexDigitVal_toHexDigit _ hhi, hexDigitVal_toHexDigit _ hlo,
        show hexDigitVal '0' = some 0 from rfl, Option.bind_eq_bind, Option.some_bind]
      congr 1
      omega
    rw [he]
    simp only [parseStringBody, hx]
    rw [if_neg (show ¬('\\' : Char) = '"' by decide), if_pos trivial]
    rw [Char.ofNat_toNat]
  · have he : escapeChar c ++ cs = c :: cs := by
      simp [escapeChar, h1, h2, h3, h4, h5, h6]
    rw [he, parseStringBody.eq_def]
    simp only []
    rw [if_neg h1, if_neg h2]

/-- Parsing an escaped run recovers the original characters, consuming up to
the closing quote. -/
theorem parseStringBody_escapeList (s : List Char) (rest : List Char) :
    parseStringBody (escapeList s ++ '"' :: rest) = some (s, rest) := by
  induction s with
  | nil => simpa using parseStringBody_close rest
  | cons c s ih =>
    rw [escapeList, List.append_assoc, parseStringBody_escape_step, ih]
    rfl

/-- A serialized number-free value starts with a character that closes no
array: one of `n`, `t`, `f`, `"`, `[`, `{`. -/
theorem renderJson_ne_rbracket (j : Json) (hn : Json.noNum j = true) :
    ∃ c t, renderJson j = c :: t ∧ c ≠ ']' := by
  cases j with
  | null => exact ⟨'n', _, rfl, by decide⟩
  | bool b =>
    cases b with
    | true => exact ⟨'t', _, rfl, by decide⟩
    | false => exact ⟨'f', _, rfl, by decide⟩
  | num n => simp [Json.noNum] at hn
  | str s => exact ⟨'"', _, rfl, by decide⟩
  | arr xs => exact ⟨'[', _, rfl, by decide⟩
  | obj fs => exact ⟨'{', _, rfl, by decide⟩

/-- `parseVal` dispatches a non-empty array body to `parseItems`. -/
theorem parseVal_arrCons (f : Nat) (c : Char) (t : List Char) (hc : c ≠ ']') :
    parseVal (f + 1) ('[' :: c :: t)
      = (parseItems f (c :: t)).map (fun p => (Json.arr p.1, p.2)) := by
  simp only [parseVal]
  rw [if_neg (show ¬('[' : Char) = '"' by decide), if_neg (show ¬('[' : Char) = 'n' by decide),
      if_neg (show ¬('[' : Char) = 't' by decide), if_neg (show ¬('[' : Char) = 'f' by decide)]
  rw [if_pos trivial]
  split
  · rename_i r heq
    injection heq with hh _
    exact absurd hh hc
  · rfl

/-- `parseVal` dispatches a non-empty object body to `parseFields`. -/
theorem parseVal_objCons (f : Nat) (cs : List Char) :
    parseVal (f + 1) ('{' :: '"' :: cs)
      = (parseFields f ('"' :: cs)).map (fun p => (Json.obj p.1, p.2)) := rfl

/-- One-step unfolding of `parseItems` at successor fuel. -/
theorem parseItems_succ (f : Nat) (cs : List Char) :
    parseItems (f + 1) cs
      = (match parseVal f cs with
         | none => none
         | some (v, r) =>
           match r with
           | ',' :: r2 => (parseItems f r2).map (fun p => (v :: p.1, p.2))
           | ']' :: r2 => some ([v], r2)
           | _ => none) := rfl

/-- One-step unfolding of `parseFields` at successor fuel on a quoted key. -/
theorem parseFields_quote (f : Nat) (cs : List Char) :
    parseFields (f + 1) ('"' :: cs)
      = (match parseStringBody cs with
         | none => none
         | some (kk, r1) =>
           match r1 with
           | ':' :: r2 =>
             match parseVal f r2 with
             | none => none
             | some (v, r3) =>
               match r3 with
               | ',' :: r4 =>
                 (parseFields f r4).map (fun p => ((String.mk kk, v) :: p.1, p.2))
               | '}' :: r4 => some ([(String.mk kk, v)], r4)
               | _ => none
           | _ => none) := rfl

/-- The codec round-trip at every fuel level: parsing a serialized
number-free value (or non-empty element/member list) within its size budget
recovers it exactly and consumes exactly its characters. -/
theorem parse_render_all (fuel : Nat) :
    (∀ (j : Json) (rest : List Char), Json.noNum j = true → Json.size j ≤ fuel →
      parseVal fuel (renderJson j ++ rest) = some (j, rest))
  ∧ (∀ (x : Json) (xs : List Json) (rest : List Char),
      noNumItems (x :: xs) = true → sizeItems (x :: xs) ≤ fuel →
      parseItems fuel (renderItems (x :: xs) ++ ']' :: rest) = some (x :: xs, rest))
  ∧ (∀ (k : String) (v : Json) (fs : List (String × Json)) (rest : List Char),
      noNumFields ((k, v) :: fs) = true → sizeFields ((k, v) :: fs) ≤ fuel →
      parseFields fuel (renderPairs ((k, v) :: fs) ++ '}' :: rest)
        = some ((k, v) :: fs, rest)) := by
  induction fuel with
  | zero =>
    refine ⟨?_, ?_, ?_⟩
    · intro j rest _ hs
      exact absurd hs (by have := Json.size_pos j; omega)
    · intro x xs rest _ hs
      simp only [sizeItems] at hs
      exact absurd hs (by omega)
    · intro k v fs rest _ hs
      simp only [sizeFields] at hs
      exact absurd hs (by omega)
  | succ f ih =>
    obtain ⟨ihV, ihI, ihF⟩ := ih
    refine ⟨?_, ?_, ?_⟩
    · intro j rest hn hs
      cases j with
      | null => rfl
      | bool b => cases b with
        | true => rfl
        | false => rfl
      | num n => simp [Json.noNum] at hn
      | str s =>
        have harg : renderJson (.str s) ++ rest
            = '"' :: (escapeList s.data ++ '"' :: rest) := by
          simp [renderJson]
        rw [harg]
        have hstep : parseVal (f + 1) ('"' :: (escapeList s.data ++ '"' :: rest))
            = (parseStringBody (escapeList s.data ++ '"' :: rest)).map
                (fun p => (Json.str (String.mk p.1), p.2)) := rfl
        rw [hstep, parseStringBody_escapeList]
        rfl
      | arr xs =>
        cases xs with
        | nil => rfl
        | cons x xs =>
          have hn' : noNumItems (x :: xs) = true := by simpa [Json.noNum] using hn
          have hs' : sizeItems (x :: xs) ≤ f := by
            simp only [Json.size] at hs; omega
          have hnx : Json.noNum x = true := by
            simp only [noNumItems, Bool.and_eq_true] at hn'; exact hn'.1
          obtain ⟨c, t, hct, hc⟩ := renderJson_ne_rbracket x hnx
          have harg : renderJson (.arr (x :: xs)) ++ rest
              = '[' :: (c :: (t ++ (renderItemsTail xs ++ ']' :: rest))) := by
            simp [renderJson, renderItems, hct]
          rw [harg, parseVal_arrCons f c _ hc]
          have hback : c :: (t ++ (renderItemsTail xs ++ ']' :: rest))
              = renderItems (x :: xs) ++ ']' :: rest := by
            simp [renderItems, hct]
          rw [hback, ihI x xs rest hn' hs']
          rfl
      | obj fs =>
        cases fs with
        | nil => rfl
        | cons kv fs =>
          obtain ⟨k, v⟩ := kv
          have hn' : noNumFields ((k, v) :: fs) = true := by simpa [Json.noNum] using hn
          have hs' : sizeFields ((k, v) :: fs) ≤ f := by
            simp only [Json.size] at hs; omega
          have harg : renderJson (.obj ((k, v) :: fs)) ++ rest
              = '{' :: ('"' :: ((escapeList k.data
                  ++ '"' :: ':' :: (renderJson v ++ renderPairsTail fs)) ++ '}' :: rest)) := by
            simp [renderJson, renderPairs]
          rw [harg, parseVal_objCons]
          have hback : '"' :: ((escapeList k.data
                ++ '"' :: ':' :: (renderJson v ++ renderPairsTail fs)) ++ '}' :: rest)
              = renderPairs ((k, v) :: fs) ++ '}' :: rest := by
            simp [renderPairs]
          rw [hback, ihF k v fs rest hn' hs']
          rfl
    · intro x xs rest hn hs
      have hnx : Json.noNum x = true := by
        simp only [noNumItems, Bool.and_eq_true] at hn; exact hn.1
      have hnxs : noNumItems xs = true := by
        simp only [noNumItems, Bool.and_eq_true] at hn; exact hn.2
      have hsx : Json.size x ≤ f := by simp only [sizeItems] at hs; omega
      have harg : renderItems (x :: xs) ++ ']' :: rest
          = renderJson x ++ (renderItemsTail xs ++ ']' :: rest) := by
        simp [renderItems]
      rw [parseItems_succ, harg, ihV x _ hnx hsx]
      cases xs with
      | nil => rfl
      | cons y ys =>
        have hs2 : sizeItems (y :: ys) ≤ f := by
          simp only [sizeItems] at hs ⊢
          have := Json.size_pos x
          omega
        have harg2 : renderItemsTail (y :: ys) ++ ']' :: rest
            = ',' :: (renderItems (y :: ys) ++ ']' :: rest) := by
          simp [renderItemsTail, renderItems]
        rw [harg2]
        simp only []
        rw [ihI y ys rest hnxs hs2]
        rfl
    · intro k v fs rest hn hs
      have hnv : Json.noNum v = true := by
        simp only [noNumFields, Bool.and_eq_true] at hn; exact hn.1
      have hnfs : noNumFields fs = true := by
        simp only [noNumFields, Bool.and_eq_true] at hn; exact hn.2
      have hsv : Json.size v ≤ f := by simp only [sizeFields] at hs; omega
      have harg : renderPairs ((k, v) :: fs) ++ '}' :: rest
          = '"' :: (escapeList k.data
              ++ '"' :: (':' :: (renderJson v ++ (renderPairsTail fs ++ '}' :: rest)))) := by
        simp [renderPairs]
      rw [harg, parseFields_quote, parseStringBody_escapeList]
      simp only []
      rw [ihV v _ hnv hsv]
      cases fs with
      | nil => rfl
      | cons kv2 fs2 =>
        obtain ⟨k2, v2⟩ := kv2
        have hs2 : sizeFields ((k2, v2) :: fs2) ≤ f := by
          simp only [sizeFields] at hs ⊢
          have := Json.size_pos v
          omega
        have harg2 : renderPairsTail ((k2, v2) :: fs2) ++ '}' :: rest
            = ',' :: (renderPairs ((k2, v2) :: fs2) ++ '}' :: rest) := by
          simp [renderPairsTail, renderPairs]
        rw [harg2]
        simp only []
        rw [ihF k2 v2 fs2 rest hnfs hs2]
        rfl

/-- A 4xx status other than 429 makes `raise_for_status` raise, and the
`ClientError` handler returns the connection-error string. -/
theorem attemptOutcome_fatal (s : Nat) (b : Option Json)
    (h1 : ¬(s = 429 ∨ 500 ≤ s)) (h2 : 400 ≤ s) :
    attemptOutcome (.response s b) = .done (.returned (.str connectErrMsg)) := by
  simp only [attemptOutcome]
  rw [if_neg h1, if_pos h2]

/-- A non-error status whose body fails JSON decoding lands in the
`JSONDecodeError` handler. -/
theorem attemptOutcome_decodeFail (s : Nat)
    (h1 : ¬(s = 429 ∨ 500 ≤ s)) (h2 : ¬400 ≤ s) :
    attemptOutcome (.response s none) = .done (.returned (.str decodeErrMsg)) := by
  simp only [attemptOutcome]
  rw [if_neg h1, if_neg h2]

/-- Every run reports the request body it was given: the same JSON body is
sent with every POST. -/
theorem analyzeGo_sentBody (env : Nat → HttpResult) (body : List Char) :
    ∀ (fuel retries attempts : Nat) (delays : List Nat),
      (analyzeGo env body retries fuel attempts delays).sentBody = body := by
  intro fuel
  induction fuel with
  | zero => intro retries attempts delays; rfl
  | succ f ih =>
    intro retries attempts delays
    cases h : attemptOutcome (env retries) with
    | retry =>
      rw [analyzeGo_retry_of env body retries f attempts delays h]
      exact ih (retries + 1) (attempts + 1) (delays ++ [2 ^ retries])
    | done o =>
      rw [analyzeGo_done env body retries f attempts delays o h]

/-- One POST is always issued before the loop can end. -/
theorem analyzeGo_attempts_succ (env : Nat → HttpResult) (body : List Char)
    (retries fuel attempts : Nat) (delays : List Nat) :
    attempts + 1 ≤ (analyzeGo env body retries (fuel + 1) attempts delays).attempts := by
  cases h : attemptOutcome (env retries) with
  | retry =>
    rw [analyzeGo_retry_of env body retries fuel attempts delays h]
    exact analyzeGo_attempts_mono env body fuel (retries + 1) (attempts + 1) _
  | done o =>
    rw [analyzeGo_done env body retries fuel attempts delays o h]

/-- C1: in a run in which every attempt receives HTTP 429 or a status ≥ 500,
the client performs exactly 5 attempts and no more, sleeping `2 ^ attempt`
seconds after each failed attempt (delays 1, 2, 4, 8, 16 — 31 seconds of
cumulative sleep), and then returns the fixed max-retries failure string. -/
theorem retry_exhaustion_five_attempts (logs : String) (env : Nat → HttpResult)
    (h : ∀ i, i < 5 → isRetryable (env i) = true) :
    analyze_logs_with_llm logs env
        = ⟨.returned (.str maxRetriesMsg), 5, [1, 2, 4, 8, 16], requestBody logs⟩
      ∧ List.sum [1, 2, 4, 8, 16] = 31 := by
  have hlist : (([] : List Nat) ++ (List.range 5).map fun i => 2 ^ (0 + i))
      = [1, 2, 4, 8, 16] := by decide
  have hmain : analyze_logs_with_llm logs env
      = ⟨.returned (.str maxRetriesMsg), 5, [1, 2, 4, 8, 16], requestBody logs⟩ := by
    unfold analyze_logs_with_llm
    rw [analyzeGo_skip env (requestBody logs) 5 0 5 0 []
        (fun i hi => by simpa using h i hi) (by omega)]
    rw [hlist]
    rfl
  exact ⟨hmain, by decide⟩

/-- C1 witness: five straight HTTP 500 responses. -/
theorem retry_exhaustion_five_attempts_witness :
    analyze_logs_with_llm "boom" env500
        = ⟨.returned (.str maxRetriesMsg), 5, [1, 2, 4, 8, 16], requestBody "boom"⟩
      ∧ List.sum [1, 2, 4, 8, 16] = 31 :=
  retry_exhaustion_five_attempts "boom" env500 (fun _ _ => rfl)

/-- C3: if attempt `k` (0-based, `k < 5`), after `k` retryable failures,
receives HTTP 200 with a body whose candidates list is non-empty and
well-shaped, the client immediately returns
`candidates[0].content.parts[0].text`: exactly `k + 1` POSTs and only the `k`
earlier backoff delays. -/
theorem success_short_circuit (logs : String) (env : Nat → HttpResult)
    (k : Nat) (t : String) (ps cs : List Json) (hk : k < 5)
    (hpre : ∀ i, i < k → isRetryable (env i) = true)
    (henv : env k = .response 200 (some (candidateBody t ps cs))) :
    analyze_logs_with_llm logs env
      = ⟨.returned (.str t), k + 1, backoffs k, requestBody logs⟩ :=
  analyze_done_at logs env k _ hk hpre (by rw [henv]; rfl)

/-- C3 witness: two 503s, then a 200 carrying "All good" on attempt 2. -/
theorem success_short_circuit_witness :
    analyze_logs_with_llm "x" envFlakyThenOk
      = ⟨.returned (.str "All good"), 3, [1, 2], requestBody "x"⟩ := by
  have h := success_short_circuit "x" envFlakyThenOk 2 "All good" [] [] (by omega)
    (fun i hi => by
      have he : envFlakyThenOk i = .response 503 none := by simp [envFlakyThenOk, hi]
      rw [he]; rfl)
    rfl
  have hb : backoffs 2 = [1, 2] := by decide
  rw [hb] at h
  exact h

/-- C6: a status that is a client error other than 429 (for example 404) ends
the call at once — no retry, no backoff sleep — with the fatal outcome
reported immediately (the `ClientError` handler's fixed string). -/
theorem fatal_client_error_no_retry (logs : String) (env : Nat → HttpResult)
    (k s : Nat) (b : Option Json) (hk : k < 5)
    (hpre : ∀ i, i < k → isRetryable (env i) = true)
    (h4 : 400 ≤ s) (h429 : s ≠ 429) (h5 : s < 500)
    (henv : env k = .response s b) :
    analyze_logs_with_llm logs env
      = ⟨.returned (.str connectErrMsg), k + 1, backoffs k, requestBody logs⟩ :=
  analyze_done_at logs env k _ hk hpre
    (by rw [henv]; exact attemptOutcome_fatal s b (by omega) h4)

/-- C6 witness: a single HTTP 404 on the first attempt. -/
theorem fatal_client_error_no_retry_witness :
    analyze_logs_with_llm "x" env404
      = ⟨.returned (.str connectErrMsg), 1, [], requestBody "x"⟩ :=
  fatal_client_error_no_retry "x" env404 0 404 none (by omega)
    (fun i hi => absurd hi (Nat.not_lt_zero i)) (by omega) (by omega) (by omega) rfl

/-- C7: HTTP 200 with body `{"candidates": []}` returns exactly the fixed
string "No analysis could be generated.", with no retry and no further
delay. -/
theorem empty_candidates_terminal (logs : String) (env : Nat → HttpResult)
    (k : Nat) (hk : k < 5)
    (hpre : ∀ i, i < k → isRetryable (env i) = true)
    (henv : env k = .response 200 (some (.obj [("candidates", .arr [])]))) :
    analyze_logs_with_llm logs env
      = ⟨.returned (.str noAnalysisMsg), k + 1, backoffs k, requestBody logs⟩ :=
  analyze_done_at logs env k _ hk hpre (by rw [henv]; rfl)

/-- C7 witness: `{"candidates": []}` on the first attempt. -/
theorem empty_candidates_terminal_witness :
    analyze_logs_with_llm "x" env200Empty
      = ⟨.returned (.str noAnalysisMsg), 1, [], requestBody "x"⟩ :=
  empty_candidates_terminal "x" env200Empty 0 (by omega)
    (fun i hi => absurd hi (Nat.not_lt_zero i)) rfl

/-- C8: a transport-level failure (`aiohttp.ClientError`) or a response-body
JSON-decoding failure aborts the call immediately, without retrying: the
former returns the fixed network/client-error string, the latter the distinct
decode-error string. -/
theorem transport_decode_no_retry (logs : String) (env : Nat → HttpResult)
    (k : Nat) (hk : k < 5)
    (hpre : ∀ i, i < k → isRetryable (env i) = true) :
    (env k = .transportError →
      analyze_logs_with_llm logs env
        = ⟨.returned (.str connectErrMsg), k + 1, backoffs k, requestBody logs⟩)
  ∧ (∀ s, s < 400 → env k = .response s none →
      analyze_logs_with_llm logs env
        = ⟨.returned (.str decodeErrMsg), k + 1, backoffs k, requestBody logs⟩) := by
  constructor
  · intro henv
    exact analyze_done_at logs env k _ hk hpre (by rw [henv]; rfl)
  · intro s hs henv
    refine analyze_done_at logs env k _ hk hpre ?_
    rw [henv]
    exact attemptOutcome_decodeFail s (by omega) (by omega)

/-- C8 witness: a transport failure, and a 200 with an undecodable body. -/
theorem transport_decode_no_retry_witness :
    analyze_logs_with_llm "x" envTransport
        = ⟨.returned (.str connectErrMsg), 1, [], requestBody "x"⟩
  ∧ analyze_logs_with_llm "x" envBadJson
        = ⟨.returned (.str decodeErrMsg), 1, [], requestBody "x"⟩ :=
  ⟨(transport_decode_no_retry "x" envTransport 0 (by omega)
      (fun i hi => absurd hi (Nat.not_lt_zero i))).1 rfl,
   (transport_decode_no_retry "x" envBadJson 0 (by omega)
      (fun i hi => absurd hi (Nat.not_lt_zero i))).2 200 (by omega) rfl⟩

/-- C9: a 2xx response whose `candidates` value is truthy but lacks the
expected nested shape (here `{"candidates": [{}]}`) makes the extraction raise
`KeyError`, which neither exception handler catches: the exception escapes
`analyze_logs_with_llm` instead of producing a failure string. -/
theorem malformed_candidates_exception_escapes :
    truthyOpt (some (.arr [Json.obj []])) = true
  ∧ (Json.obj [("candidates", Json.arr [Json.obj []])]).pyGet "candidates"
      = .ok (some (.arr [Json.obj []]))
  ∧ extractText (.obj [("candidates", .arr [.obj []])]) = .error .keyError
  ∧ analyze_logs_with_llm "x" envMalformed
      = ⟨.raised .keyError, 1, [], requestBody "x"⟩ :=
  ⟨rfl, rfl, rfl, rfl⟩

/-- C2 counterexample: the credential is the hardcoded empty string — no
configuration is consulted — and a run with no resolvable credential still
issues an HTTP request (one, not zero) and returns the connection-error
string, never a missing-API-key failure. -/
theorem credential_resolution_cex :
    api_key = ""
  ∧ (analyze_logs_with_llm "x" env404).attempts = 1
  ∧ (analyze_logs_with_llm "x" env404).outcome = .returned (.str connectErrMsg) :=
  ⟨rfl, rfl, rfl⟩

/-- C2 amended: `analyze_logs_with_llm` performs no credential resolution —
`api_key` is the constant empty string — and every run issues at least one
HTTP request; there is no missing-credential short-circuit. -/
theorem credential_resolution_amended (logs : String) (env : Nat → HttpResult) :
    api_key = "" ∧ 1 ≤ (analyze_logs_with_llm logs env).attempts :=
  ⟨rfl, analyzeGo_attempts_succ env (requestBody logs) 0 4 0 []⟩

/-- C5 counterexample: with an uploaded file whose decoded contents are empty
and non-empty pasted text, the code yields the file's empty contents, while
the claimed rule (file wins only if non-empty) would yield the pasted text. -/
theorem input_precedence_cex :
    logs_input (some "") "pasted logs" = ""
  ∧ logs_input_specRule (some "") "pasted logs" = "pasted logs"
  ∧ logs_input (some "") "pasted logs" ≠ logs_input_specRule (some "") "pasted logs" :=
  ⟨rfl, rfl, by decide⟩

/-- C5 amended: a present uploaded file wins unconditionally — even when its
decoded contents are empty — and only in its absence is the text area used;
in particular, with both non-empty the file's content is produced, with only
pasted text that text is produced, and with neither the empty string. -/
theorem input_precedence_amended (f t : String) :
    logs_input (some f) t = f ∧ logs_input none t = t ∧ logs_input none "" = "" :=
  ⟨rfl, rfl, rfl⟩

/-- C10: every value a non-successful run returns is one of exactly four fixed
strings (the empty-result, connection-error, decode-error and max-retries
messages — pairwise distinct), and the return type carries no tag separating
them from a successful analysis text: a successful extraction can produce a
value equal to one of the failure strings. -/
theorem untyped_result_strings :
    (∀ (logs : String) (env : Nat → HttpResult) (v : Json) (a : Nat)
        (d : List Nat) (b : List Char),
        analyze_logs_with_llm logs env = ⟨.returned v, a, d, b⟩ →
        v ∈ failureReturns ∨ ∃ k, k < 5 ∧ succValAt env k = some v)
  ∧ failureReturns.length = 4
  ∧ failureReturns.Nodup
  ∧ Json.str connectErrMsg ∈ failureReturns
  ∧ succValAt envAmbiguous 0 = some (.str connectErrMsg) := by
  refine ⟨?_, rfl, ?_, ?_, rfl⟩
  · intro logs env v a d b hrun
    unfold analyze_logs_with_llm at hrun
    have hcl := analyzeGo_returned_classify env (requestBody logs) 5 0 0 [] v a d b
      (fun i hi => absurd hi (Nat.not_lt_zero i)) hrun
    rcases hcl with hf | ⟨k, _, hk2, hk3⟩
    · exact Or.inl hf
    · exact Or.inr ⟨k, by omega, hk3⟩
  · simp only [failureReturns, List.nodup_cons, List.mem_cons, List.mem_singleton,
      List.not_mem_nil, or_false, not_or, Json.str.injEq, List.nodup_nil, and_true]
    refine ⟨⟨?_, ?_, ?_⟩, ⟨?_, ?_⟩, ?_⟩ <;> decide
  · simp [failureReturns]

/-- C10 witness: the 404 run's returned value is classified by the theorem. -/
theorem untyped_result_strings_witness :
    Json.str connectErrMsg ∈ failureReturns
      ∨ ∃ k, k < 5 ∧ succValAt env404 k = some (Json.str connectErrMsg) :=
  untyped_result_strings.1 "x" env404 (.str connectErrMsg) 1 [] (requestBody "x") rfl

/-- C4: for every LogText value `L` — empty, multi-line, or containing quotes
or braces — the request body sent by `analyze_logs_with_llm` is valid JSON:
parsing the serialized body recovers exactly the payload value, whose shape is
`{"contents":[{"role":"user","parts":[{"text": prompt}]}],
"generationConfig":{"responseMimeType":"text/plain"}}`, and the prompt string
contains `L` verbatim, unaltered, between the fixed template texts. -/
theorem request_body_valid_json_verbatim (L : String) (env : Nat → HttpResult) :
    (analyze_logs_with_llm L env).sentBody = requestBody L
  ∧ parseVal (Json.size (payload L)) (requestBody L) = some (payload L, [])
  ∧ payload L
      = .obj
          [("contents",
            .arr
              [.obj
                [("role", .str "user"),
                 ("parts", .arr [.obj [("text", .str (prompt L))]])]]),
           ("generationConfig", .obj [("responseMimeType", .str "text/plain")])]
  ∧ prompt L = promptPre ++ L ++ promptPost := by
  refine ⟨?_, ?_, rfl, rfl⟩
  · exact analyzeGo_sentBody env (requestBody L) 5 0 0 []
  · have hn : Json.noNum (payload L) = true := rfl
    have h := (parse_render_all (Json.size (payload L))).1 (payload L) [] hn (le_refl _)
    rw [List.append_nil] at h
    exact h
